import Mathlib

/-!
Verification development for the WoSBMarketplace core (Go sources under
`internal/bot` and `internal/database`).

Shallow embedding conventions:
* Go strings are modeled as their character sequences (`List Char`); the
  concrete inputs used below are ASCII, where Go's byte indexing and
  `len` coincide with character indexing and length.
* Go `time.Time` values are modeled as `Nat` ticks; `time.Now()` becomes an
  explicit `now` parameter.  `now.Sub(t) <= d` over Go durations coincides
  with truncated `Nat` subtraction `now - t ≤ d` (a negative Go duration is
  `≤ d` exactly as the truncated difference `0` is).
* Go `float64` scores are modeled as `ℚ` (the score arithmetic is exact
  rational arithmetic `1 - d / maxLen`).
* Go maps are modeled as association lists with update-in-place insertion;
  lookup ignores duplicates exactly as a Go map cannot hold them.
* The `levenshtein` dynamic program is embedded as the recurrence the DP
  table tabulates (`matrix[i][j] = min3 (del+1) (ins+1) (sub+cost)`), driven
  by a fuel argument equal to the total input length so that the function is
  structurally recursive and kernel-reducible.
-/

namespace WoSB

/-- Character strings, modeled as lists of characters. -/
abbrev Str := List Char

/-! ## Association-list model of Go maps -/

/-- Lookup in an association list (Go `v, ok := m[k]`). -/
def mlookup {κ β : Type} [DecidableEq κ] (k : κ) : List (κ × β) → Option β
  | [] => none
  | (k', v) :: rest => if k' = k then some v else mlookup k rest

/-- Go `m[k] = v`: replace the entry for `k` if present, else append. -/
def minsert {κ β : Type} [DecidableEq κ] (k : κ) (v : β) : List (κ × β) → List (κ × β)
  | [] => [(k, v)]
  | (k', v') :: rest => if k' = k then (k, v) :: rest else (k', v') :: minsert k v rest

/-- Go `delete(m, k)`: drop the entry for `k`. -/
def merase {κ β : Type} [DecidableEq κ] (k : κ) : List (κ × β) → List (κ × β)
  | [] => []
  | (k', v') :: rest => if k' = k then rest else (k', v') :: merase k rest

theorem mlookup_minsert_self {κ β : Type} [DecidableEq κ] (k : κ) (v : β)
    (l : List (κ × β)) : mlookup k (minsert k v l) = some v := by
  induction l with
  | nil => simp [minsert, mlookup]
  | cons p rest ih =>
      obtain ⟨k', v'⟩ := p
      by_cases h : k' = k <;> simp [minsert, mlookup, h, ih]

theorem mlookup_minsert_ne {κ β : Type} [DecidableEq κ] {k k' : κ} (v : β)
    (l : List (κ × β)) (h : k' ≠ k) :
    mlookup k' (minsert k v l) = mlookup k' l := by
  have hk : ¬ k = k' := fun hEq => h hEq.symm
  induction l with
  | nil => simp [minsert, mlookup, hk]
  | cons p rest ih =>
      obtain ⟨k₀, v₀⟩ := p
      by_cases h₀ : k₀ = k
      · subst h₀
        simp [minsert, mlookup, hk]
      · simp [minsert, mlookup, h₀, ih]

/-! ## Similarity scorer (`submissions.go`: `min`, `levenshtein`,
`calculateSimilarity`) -/

/-- Go helper `min(a, b, c int) int` from `submissions.go`. -/
def min3 (a b c : Nat) : Nat :=
  if a < b then (if a < c then a else c)
  else (if b < c then b else c)

theorem min3_eq_min_min (a b c : Nat) : min3 a b c = min a (min b c) := by
  unfold min3
  split_ifs <;> omega

/-- Fueled form of the edit-distance recurrence tabulated by the DP matrix in
`levenshtein` (`submissions.go`): `min3 (deletion+1) (insertion+1)
(substitution+cost)` with `cost = 0` iff the characters agree.  The fuel is
only there to make the recursion structural; `levenshtein` below always
supplies enough of it. -/
def levenshteinFuel : Nat → Str → Str → Nat
  | _, [], b => b.length
  | _, a, [] => a.length
  | 0, _, _ => 0
  | n + 1, x :: xs, y :: ys =>
      min3 (levenshteinFuel n xs (y :: ys) + 1)
           (levenshteinFuel n (x :: xs) ys + 1)
           (levenshteinFuel n xs ys + (if x = y then 0 else 1))

/-- Edit distance of `levenshtein` (`submissions.go`): unit-cost insertion,
deletion and substitution. -/
def levenshtein (a b : Str) : Nat :=
  levenshteinFuel (a.length + b.length) a b

theorem levenshteinFuel_nil_left (n : Nat) (b : Str) :
    levenshteinFuel n [] b = b.length := by
  cases n <;> cases b <;> rfl

theorem levenshteinFuel_nil_right (n : Nat) (a : Str) :
    levenshteinFuel n a [] = a.length := by
  cases n <;> cases a <;> rfl

theorem levenshteinFuel_congr : ∀ (n m : Nat) (a b : Str),
    a.length + b.length ≤ n → a.length + b.length ≤ m →
    levenshteinFuel n a b = levenshteinFuel m a b := by
  intro n
  induction n with
  | zero =>
      intro m a b hn _
      cases a with
      | nil => simp [levenshteinFuel_nil_left]
      | cons x xs => simp at hn
  | succ n ih =>
      intro m a b hn hm
      cases a with
      | nil => simp [levenshteinFuel_nil_left]
      | cons x xs =>
        cases b with
        | nil => simp [levenshteinFuel_nil_right]
        | cons y ys =>
          cases m with
          | zero => simp at hm
          | succ m =>
            show min3 _ _ _ = min3 _ _ _
            simp only [List.length_cons] at hn hm
            have h1n : xs.length + (y :: ys).length ≤ n := by
              simp only [List.length_cons]; omega
            have h1m : xs.length + (y :: ys).length ≤ m := by
              simp only [List.length_cons]; omega
            have h2n : (x :: xs).length + ys.length ≤ n := by
              simp only [List.length_cons]; omega
            have h2m : (x :: xs).length + ys.length ≤ m := by
              simp only [List.length_cons]; omega
            have h3n : xs.length + ys.length ≤ n := by omega
            have h3m : xs.length + ys.length ≤ m := by omega
            rw [ih m xs (y :: ys) h1n h1m, ih m (x :: xs) ys h2n h2m,
                ih m xs ys h3n h3m]

theorem levenshtein_nil_left (b : Str) : levenshtein [] b = b.length := by
  simp [levenshtein, levenshteinFuel_nil_left]

theorem levenshtein_nil_right (a : Str) : levenshtein a [] = a.length := by
  simp [levenshtein, levenshteinFuel_nil_right]

theorem levenshtein_cons_cons (x : Char) (xs : Str) (y : Char) (ys : Str) :
    levenshtein (x :: xs) (y :: ys) =
      min3 (levenshtein xs (y :: ys) + 1)
           (levenshtein (x :: xs) ys + 1)
           (levenshtein xs ys + (if x = y then 0 else 1)) := by
  show levenshteinFuel ((x :: xs).length + (y :: ys).length) _ _ = _
  have hlen : (x :: xs).length + (y :: ys).length
      = (xs.length + (y :: ys).length) + 1 := by
    simp only [List.length_cons]; omega
  rw [hlen]
  show min3 (levenshteinFuel (xs.length + (y :: ys).length) xs (y :: ys) + 1)
        (levenshteinFuel (xs.length + (y :: ys).length) (x :: xs) ys + 1)
        (levenshteinFuel (xs.length + (y :: ys).length) xs ys + (if x = y then 0 else 1)) = _
  rw [levenshteinFuel_congr (xs.length + (y :: ys).length) ((x :: xs).length + ys.length)
        (x :: xs) ys (by simp only [List.length_cons]; omega) le_rfl,
      levenshteinFuel_congr (xs.length + (y :: ys).length) (xs.length + ys.length)
        xs ys (by simp only [List.length_cons]; omega) le_rfl]
  rfl

theorem levenshtein_self (a : Str) : levenshtein a a = 0 := by
  induction a with
  | nil => simp [levenshtein_nil_left]
  | cons x xs ih =>
      rw [levenshtein_cons_cons, min3_eq_min_min]
      simp [ih]

theorem levenshtein_le_max : ∀ (a b : Str), levenshtein a b ≤ max a.length b.length := by
  intro a
  induction a with
  | nil => intro b; simp [levenshtein_nil_left]
  | cons x xs ih =>
      intro b
      cases b with
      | nil => simp [levenshtein_nil_right]
      | cons y ys =>
        rw [levenshtein_cons_cons, min3_eq_min_min]
        have h := ih ys
        have hcost : (if x = y then 0 else 1) ≤ 1 := by split <;> omega
        have : levenshtein xs ys + (if x = y then 0 else 1)
            ≤ max xs.length ys.length + 1 := by omega
        calc min (levenshtein xs (y :: ys) + 1)
              (min (levenshtein (x :: xs) ys + 1)
                   (levenshtein xs ys + (if x = y then 0 else 1)))
            ≤ levenshtein xs ys + (if x = y then 0 else 1) :=
              le_trans (min_le_right _ _) (min_le_right _ _)
          _ ≤ max xs.length ys.length + 1 := this
          _ ≤ max (x :: xs).length (y :: ys).length := by
              rw [List.length_cons, List.length_cons, Nat.succ_max_succ]

theorem min3_comm_left (a b c : Nat) : min3 a b c = min3 b a c := by
  rw [min3_eq_min_min, min3_eq_min_min]
  exact min_left_comm a b c

theorem levenshtein_comm_aux : ∀ (n : Nat) (a b : Str),
    a.length + b.length ≤ n → levenshtein a b = levenshtein b a := by
  intro n
  induction n with
  | zero =>
      intro a b h
      cases a with
      | nil => simp [levenshtein_nil_left, levenshtein_nil_right]
      | cons x xs => simp only [List.length_cons] at h; omega
  | succ n ih =>
      intro a b h
      cases a with
      | nil => simp [levenshtein_nil_left, levenshtein_nil_right]
      | cons x xs =>
        cases b with
        | nil => simp [levenshtein_nil_left, levenshtein_nil_right]
        | cons y ys =>
          simp only [List.length_cons] at h
          rw [levenshtein_cons_cons, levenshtein_cons_cons,
              ih xs (y :: ys) (by simp only [List.length_cons]; omega),
              ih (x :: xs) ys (by simp only [List.length_cons]; omega),
              ih xs ys (by omega)]
          have hcost : (if x = y then 0 else 1) = (if y = x then 0 else 1) := by
            by_cases hxy : x = y <;> simp [hxy, Ne.symm, eq_comm]
          rw [hcost, min3_comm_left]

theorem levenshtein_comm (a b : Str) : levenshtein a b = levenshtein b a :=
  levenshtein_comm_aux (a.length + b.length) a b le_rfl

/-- Go `calculateSimilarity` (`submissions.go`): `1.0` on equal inputs, else
`1 - distance/maxLen` (and `0.0` on the unreachable `maxLen == 0` branch). -/
def calculateSimilarity (a b : Str) : ℚ :=
  if a = b then 1
  else
    let distance := levenshtein a b
    let maxLen := max a.length b.length
    if maxLen = 0 then 0
    else 1 - (distance : ℚ) / (maxLen : ℚ)

theorem calculateSimilarity_self (a : Str) : calculateSimilarity a a = 1 := by
  simp [calculateSimilarity]

theorem calculateSimilarity_comm (a b : Str) :
    calculateSimilarity a b = calculateSimilarity b a := by
  unfold calculateSimilarity
  by_cases hab : a = b
  · simp [hab]
  · simp only [hab, if_neg, Ne.symm hab, if_false]
    rw [levenshtein_comm, Nat.max_comm]

theorem calculateSimilarity_nonneg (a b : Str) : 0 ≤ calculateSimilarity a b := by
  unfold calculateSimilarity
  by_cases hab : a = b
  · simp [hab]
  · simp only [hab, if_false]
    by_cases hmax : max a.length b.length = 0
    · simp [hmax]
    · simp only [hmax, if_false]
      have hpos : (0 : ℚ) < ((max a.length b.length : ℕ) : ℚ) :=
        Nat.cast_pos.mpr (Nat.pos_of_ne_zero hmax)
      have hle : ((levenshtein a b : ℕ) : ℚ) ≤ ((max a.length b.length : ℕ) : ℚ) :=
        Nat.cast_le.mpr (levenshtein_le_max a b)
      have : ((levenshtein a b : ℕ) : ℚ) / ((max a.length b.length : ℕ) : ℚ) ≤ 1 :=
        (div_le_one hpos).mpr hle
      linarith

theorem calculateSimilarity_le_one (a b : Str) : calculateSimilarity a b ≤ 1 := by
  unfold calculateSimilarity
  by_cases hab : a = b
  · simp [hab]
  · simp only [hab, if_false]
    by_cases hmax : max a.length b.length = 0
    · simp [hmax]
    · simp only [hmax, if_false]
      have hpos : (0 : ℚ) < ((max a.length b.length : ℕ) : ℚ) :=
        Nat.cast_pos.mpr (Nat.pos_of_ne_zero hmax)
      have hnn : (0 : ℚ) ≤ ((levenshtein a b : ℕ) : ℚ) := Nat.cast_nonneg _
      have : 0 ≤ ((levenshtein a b : ℕ) : ℚ) / ((max a.length b.length : ℕ) : ℚ) :=
        div_nonneg hnn hpos.le
      linarith

/-- C10: for all strings `a` and `b`, `similarity(a,b)` lies in `[0,1]`, is
symmetric, and `similarity(a,a) = 1` (including `similarity("","") = 1`),
where the score is `1 - editDistance/max(len)` with unit-cost edit
operations (`calculateSimilarity` over `levenshtein`). -/
theorem similarity_bounds_symm (a b : Str) :
    0 ≤ calculateSimilarity a b ∧ calculateSimilarity a b ≤ 1 ∧
    calculateSimilarity a b = calculateSimilarity b a ∧
    calculateSimilarity a a = 1 ∧
    calculateSimilarity ([] : Str) ([] : Str) = 1 :=
  ⟨calculateSimilarity_nonneg a b, calculateSimilarity_le_one a b,
   calculateSimilarity_comm a b, calculateSimilarity_self a,
   calculateSimilarity_self []⟩

/-! ## Normalizer and entity matching (`submissions.go`, `database` matching
section: `normalize`, `MatchConfidence`, `getConfidence`, `FindItemMatches`) -/

/-- Go `strings.ToLower`, character by character (ASCII-faithful). -/
def strToLower (s : Str) : Str := s.map Char.toLower

/-- Go `strings.TrimSpace`: drop leading and trailing whitespace. -/
def strTrim (s : Str) : Str :=
  ((s.dropWhile Char.isWhitespace).reverse.dropWhile Char.isWhitespace).reverse

def fieldsAux : Str → Str → List Str
  | [], cur => if cur = [] then [] else [cur.reverse]
  | c :: rest, cur =>
      if c.isWhitespace then
        if cur = [] then fieldsAux rest [] else cur.reverse :: fieldsAux rest []
      else fieldsAux rest (c :: cur)

/-- Go `strings.Fields`: the maximal whitespace-free runs. -/
def strFields (s : Str) : List Str := fieldsAux s []

/-- Go `strings.Join(fields, " ")`. -/
def joinSpace : List Str → Str
  | [] => []
  | [w] => w
  | w :: ws => w ++ ' ' :: joinSpace ws

/-- Go `normalize` (`submissions.go`): lowercase, trim, strip every character
that is not a letter, digit or space (`unicode.IsLetter`, `IsDigit`,
`IsSpace`, ASCII-faithfully `Char.isAlpha`/`isDigit`/`isWhitespace`), then
collapse whitespace runs to single spaces. -/
def normalize (s : Str) : Str :=
  let s1 := strToLower s
  let s2 := strTrim s1
  let result := s2.filter (fun r => r.isAlpha || r.isDigit || r.isWhitespace)
  joinSpace (strFields result)

/-- Go `MatchConfidence` constants (`submissions.go`). -/
inductive MatchConfidence where
  | ConfidenceNone
  | ConfidenceLow
  | ConfidenceMedium
  | ConfidenceHigh
  | ConfidenceExact
deriving DecidableEq

def HighConfidenceThreshold : ℚ := 0.85

def MediumConfidenceThreshold : ℚ := 0.60

/-- Go `getConfidence` (`submissions.go`). -/
def getConfidence (score : ℚ) : MatchConfidence :=
  if 1 ≤ score then .ConfidenceExact
  else if HighConfidenceThreshold ≤ score then .ConfidenceHigh
  else if MediumConfidenceThreshold ≤ score then .ConfidenceMedium
  else .ConfidenceLow

/-- A canonical item; of `database.Item` only the identity and the matched
name take part in resolution. -/
structure Item where
  id : Int
  name : Str
deriving DecidableEq

/-- Go `ItemMatch` (`submissions.go`). -/
structure ItemMatch where
  item : Item
  score : ℚ
  confidence : MatchConfidence
  matchedVia : Str
deriving DecidableEq

/-- One iteration of the fuzzy loop of `FindItemMatches`: score the candidate
name, append a match when the name score reaches the Medium threshold, then
run the alias loop.  The alias loop folds the best alias score into a local
(`if aliasScore > score`), but — exactly as in the source, where the local is
dropped when the iteration ends and the append already happened — that value
is never used. -/
def fuzzyScanStep (normalized : Str) (acc : List ItemMatch)
    (entry : Item × List Str) : List ItemMatch :=
  let item := entry.1
  let score := calculateSimilarity normalized (normalize item.name)
  let acc1 :=
    if MediumConfidenceThreshold ≤ score then
      acc ++ [{ item := item, score := score,
                confidence := getConfidence score,
                matchedVia := "fuzzy".data }]
    else acc
  let _deadScore := entry.2.foldl
    (fun s al =>
      let aliasScore := calculateSimilarity normalized (normalize al)
      if s < aliasScore then aliasScore else s) score
  acc1

/-- The fuzzy scan of `FindItemMatches` over the whole candidate registry;
`items` pairs each candidate (in registry order) with the aliases the
`getItemAliases` collaborator reports for it. -/
def fuzzyMatchesOf (normalized : Str) (items : List (Item × List Str)) :
    List ItemMatch :=
  items.foldl (fuzzyScanStep normalized) []

/-- The inner `j` loop of the exchange sort in `FindItemMatches`: `p` holds
slot `i`; every later element scoring strictly higher is swapped in. -/
def bubble (p : ItemMatch) : List ItemMatch → ItemMatch × List ItemMatch
  | [] => (p, [])
  | x :: xs =>
      if p.score < x.score then
        let r := bubble x xs
        (r.1, p :: r.2)
      else
        let r := bubble p xs
        (r.1, x :: r.2)

/-- The outer `i` loop of the exchange sort; the counter (one pass per slot)
doubles as structural fuel. -/
def exchangeSortFuel : Nat → List ItemMatch → List ItemMatch
  | 0, l => l
  | _, [] => []
  | n + 1, x :: xs =>
      let r := bubble x xs
      r.1 :: exchangeSortFuel n r.2

/-- The in-place exchange sort of `FindItemMatches` (`for i ... for j := i+1
... if matches[j].Score > matches[i].Score swap`). -/
def exchangeSort (l : List ItemMatch) : List ItemMatch :=
  exchangeSortFuel l.length l

/-- Go `if len(matches) > limit { matches = matches[:limit] }`. -/
def truncateMatches (limit : Nat) (ms : List ItemMatch) : List ItemMatch :=
  if limit < ms.length then ms.take limit else ms

/-- The fuzzy tier of `FindItemMatches`: runs only when neither the
exact-name nor the alias lookup short-circuited with an authoritative
match. -/
def findItemMatchesFuzzy (name : Str) (items : List (Item × List Str))
    (limit : Nat) : List ItemMatch :=
  truncateMatches limit (exchangeSort (fuzzyMatchesOf (normalize name) items))

theorem bubble_snd_length (p : ItemMatch) (l : List ItemMatch) :
    (bubble p l).2.length = l.length := by
  induction l generalizing p with
  | nil => rfl
  | cons x xs ih =>
      by_cases h : p.score < x.score <;> simp [bubble, h, ih]

theorem bubble_perm (p : ItemMatch) (l : List ItemMatch) :
    ((bubble p l).1 :: (bubble p l).2).Perm (p :: l) := by
  induction l generalizing p with
  | nil => simp [bubble]
  | cons x xs ih =>
      by_cases h : p.score < x.score
      · simp only [bubble, h, if_true]
        exact (List.Perm.swap p (bubble x xs).1 (bubble x xs).2).trans
          ((ih x).cons p)
      · simp only [bubble, h, if_false]
        exact ((List.Perm.swap x (bubble p xs).1 (bubble p xs).2).trans
          ((ih p).cons x)).trans (List.Perm.swap p x xs)

theorem bubble_fst_ge (p : ItemMatch) (l : List ItemMatch) :
    p.score ≤ (bubble p l).1.score ∧
    ∀ m ∈ (bubble p l).2, m.score ≤ (bubble p l).1.score := by
  induction l generalizing p with
  | nil => exact ⟨le_rfl, by simp [bubble]⟩
  | cons x xs ih =>
      by_cases h : p.score < x.score
      · simp only [bubble, h, if_true]
        obtain ⟨h1, h2⟩ := ih x
        refine ⟨le_trans h.le h1, ?_⟩
        intro m hm
        rcases List.mem_cons.mp hm with rfl | hm
        · exact le_trans h.le h1
        · exact h2 m hm
      · simp only [bubble, h, if_false]
        obtain ⟨h1, h2⟩ := ih p
        refine ⟨h1, ?_⟩
        intro m hm
        rcases List.mem_cons.mp hm with rfl | hm
        · exact le_trans (not_lt.mp h) h1
        · exact h2 m hm

theorem exchangeSortFuel_perm (n : Nat) :
    ∀ l : List ItemMatch, (exchangeSortFuel n l).Perm l := by
  induction n with
  | zero => intro l; cases l <;> exact List.Perm.refl _
  | succ n ih =>
      intro l
      cases l with
      | nil => simp [exchangeSortFuel]
      | cons x xs =>
          simp only [exchangeSortFuel]
          exact (List.Perm.cons _ (ih _)).trans (bubble_perm x xs)

theorem exchangeSortFuel_sorted (n : Nat) :
    ∀ l : List ItemMatch, l.length ≤ n →
      (exchangeSortFuel n l).Pairwise (fun a b => b.score ≤ a.score) := by
  induction n with
  | zero =>
      intro l h
      cases l with
      | nil => simp [exchangeSortFuel]
      | cons x xs => simp at h
  | succ n ih =>
      intro l h
      cases l with
      | nil => simp [exchangeSortFuel]
      | cons x xs =>
          simp only [exchangeSortFuel]
          refine List.Pairwise.cons ?_ (ih _ ?_)
          · intro m hm
            have hmem : m ∈ (bubble x xs).2 :=
              (exchangeSortFuel_perm n _).mem_iff.mp hm
            exact (bubble_fst_ge x xs).2 m hmem
          · rw [bubble_snd_length]
            simp only [List.length_cons] at h
            omega

theorem exchangeSort_perm (l : List ItemMatch) : (exchangeSort l).Perm l :=
  exchangeSortFuel_perm l.length l

theorem exchangeSort_sorted (l : List ItemMatch) :
    (exchangeSort l).Pairwise (fun a b => b.score ≤ a.score) :=
  exchangeSortFuel_sorted l.length l le_rfl

theorem truncateMatches_eq_take (limit : Nat) (l : List ItemMatch) :
    truncateMatches limit l = l.take limit := by
  unfold truncateMatches
  split
  · rfl
  · next h => rw [List.take_of_length_le (by omega)]

/-- C4 (code bug): in the fuzzy tier, alias similarities never reach the
reported scores.  With a registry containing only an item named "xyz"
carrying the alias "abc", the query "abc" has alias similarity `1`
(`≥ 0.60`), yet the fuzzy tier returns no match at all, because
`FindItemMatches` appends the candidate (conditional only on the *name*
score) before the alias loop runs, and the alias loop's improved local
`score` is discarded at the end of the iteration. -/
theorem fuzzy_alias_score_dead :
    findItemMatchesFuzzy "abc".data [(⟨1, "xyz".data⟩, ["abc".data])] 5 = [] ∧
    calculateSimilarity (normalize "abc".data) (normalize "abc".data) = 1 ∧
    calculateSimilarity (normalize "abc".data) (normalize "xyz".data)
      < MediumConfidenceThreshold := by
  have hq : normalize "abc".data = "abc".data := by decide
  have hn : normalize "xyz".data = "xyz".data := by decide
  have hne : "abc".data ≠ "xyz".data := by decide
  have hlev : levenshtein "abc".data "xyz".data = 3 := by decide
  have hscore : calculateSimilarity "abc".data "xyz".data = 0 := by
    simp only [calculateSimilarity, if_neg hne, hlev]
    norm_num
  have hnle : ¬ MediumConfidenceThreshold ≤ (0 : ℚ) := by
    norm_num [MediumConfidenceThreshold]
  refine ⟨?_, ?_, ?_⟩
  · have hfold : fuzzyMatchesOf (normalize "abc".data)
        [(⟨1, "xyz".data⟩, ["abc".data])] = [] := by
      simp only [fuzzyMatchesOf, List.foldl, fuzzyScanStep, hq, hn, hscore,
        if_neg hnle]
    show truncateMatches 5 (exchangeSort (fuzzyMatchesOf (normalize "abc".data)
        [(⟨1, "xyz".data⟩, ["abc".data])])) = []
    rw [hfold]
    rfl
  · exact calculateSimilarity_self _
  · rw [hq, hn, hscore]
    norm_num [MediumConfidenceThreshold]

/-- C5 counterexample: with the candidate registry in order
`[abca, abcb, abcd]` and query "abcd", the two candidates tied at score
`3/4` come back in *reversed* registry order (`[3, 2, 1]`, not the stable
`[3, 1, 2]`): the exchange sort of `FindItemMatches` is not stable. -/
theorem fuzzy_sort_not_stable :
    (findItemMatchesFuzzy "abcd".data
        [(⟨1, "abca".data⟩, []), (⟨2, "abcb".data⟩, []), (⟨3, "abcd".data⟩, [])]
        10).map (fun m => m.item.id) = [3, 2, 1] ∧
    calculateSimilarity (normalize "abcd".data) (normalize "abca".data)
      = calculateSimilarity (normalize "abcd".data) (normalize "abcb".data) := by
  have hq : normalize "abcd".data = "abcd".data := by decide
  have hn1 : normalize "abca".data = "abca".data := by decide
  have hn2 : normalize "abcb".data = "abcb".data := by decide
  have hne1 : "abcd".data ≠ "abca".data := by decide
  have hne2 : "abcd".data ≠ "abcb".data := by decide
  have hl1 : levenshtein "abcd".data "abca".data = 1 := by decide
  have hl2 : levenshtein "abcd".data "abcb".data = 1 := by decide
  have hs1 : calculateSimilarity "abcd".data "abca".data = 3/4 := by
    simp only [calculateSimilarity, if_neg hne1, hl1]; norm_num
  have hs2 : calculateSimilarity "abcd".data "abcb".data = 3/4 := by
    simp only [calculateSimilarity, if_neg hne2, hl2]; norm_num
  have hs3 : calculateSimilarity "abcd".data "abcd".data = 1 :=
    calculateSimilarity_self _
  refine ⟨?_, by rw [hq, hn1, hn2, hs1, hs2]⟩
  have hmed : MediumConfidenceThreshold ≤ (3/4 : ℚ) := by
    norm_num [MediumConfidenceThreshold]
  have hmed1 : MediumConfidenceThreshold ≤ (1 : ℚ) := by
    norm_num [MediumConfidenceThreshold]
  have hhigh : ¬ HighConfidenceThreshold ≤ (3/4 : ℚ) := by
    norm_num [HighConfidenceThreshold]
  have hex : ¬ (1 : ℚ) ≤ 3/4 := by norm_num
  have hlt : (3/4 : ℚ) < 1 := by norm_num
  have hnlt : ¬ (1 : ℚ) < 3/4 := by norm_num
  have hfold : fuzzyMatchesOf (normalize "abcd".data)
      [(⟨1, "abca".data⟩, []), (⟨2, "abcb".data⟩, []), (⟨3, "abcd".data⟩, [])]
      = [{ item := ⟨1, "abca".data⟩, score := 3/4, confidence := .ConfidenceMedium,
           matchedVia := "fuzzy".data },
         { item := ⟨2, "abcb".data⟩, score := 3/4, confidence := .ConfidenceMedium,
           matchedVia := "fuzzy".data },
         { item := ⟨3, "abcd".data⟩, score := 1, confidence := .ConfidenceExact,
           matchedVia := "fuzzy".data }] := by
    simp only [fuzzyMatchesOf, List.foldl, fuzzyScanStep, getConfidence,
      hq, hn1, hn2, hs1, hs2, hs3, if_pos hmed, if_pos hmed1, if_neg hhigh,
      if_neg hex, if_pos (le_refl (1 : ℚ)), List.nil_append, List.cons_append,
      List.append_nil]
  show (truncateMatches 10 (exchangeSort (fuzzyMatchesOf (normalize "abcd".data)
      [(⟨1, "abca".data⟩, []), (⟨2, "abcb".data⟩, []), (⟨3, "abcd".data⟩, [])]))).map
      (fun m => m.item.id) = [3, 2, 1]
  rw [hfold]
  have hsort : exchangeSort
      [{ item := ⟨1, "abca".data⟩, score := 3/4, confidence := .ConfidenceMedium,
         matchedVia := "fuzzy".data },
       { item := ⟨2, "abcb".data⟩, score := 3/4, confidence := .ConfidenceMedium,
         matchedVia := "fuzzy".data },
       { item := ⟨3, "abcd".data⟩, score := 1, confidence := .ConfidenceExact,
         matchedVia := "fuzzy".data }]
      = [{ item := ⟨3, "abcd".data⟩, score := 1, confidence := .ConfidenceExact,
           matchedVia := "fuzzy".data },
         { item := ⟨2, "abcb".data⟩, score := 3/4, confidence := .ConfidenceMedium,
           matchedVia := "fuzzy".data },
         { item := ⟨1, "abca".data⟩, score := 3/4, confidence := .ConfidenceMedium,
           matchedVia := "fuzzy".data }] := by
    simp only [exchangeSort, List.length_cons, List.length_nil, exchangeSortFuel,
      bubble, lt_self_iff_false, if_false, if_pos hlt, if_neg hnlt]
  rw [hsort]
  rfl

/-- C5 (amended): the fuzzy tier's output is sorted by score descending and
truncated to the caller's limit, and the sort permutes the scanned matches —
but the tie order is whatever the exchange sort produces, not registry
order (the sort is not stable; see the counterexample). -/
theorem fuzzy_sort_desc_truncate (name : Str) (items : List (Item × List Str))
    (limit : Nat) :
    (findItemMatchesFuzzy name items limit).Pairwise
      (fun a b => b.score ≤ a.score) ∧
    findItemMatchesFuzzy name items limit
      = (exchangeSort (fuzzyMatchesOf (normalize name) items)).take limit ∧
    (exchangeSort (fuzzyMatchesOf (normalize name) items)).Perm
      (fuzzyMatchesOf (normalize name) items) := by
  refine ⟨?_, ?_, exchangeSort_perm _⟩
  · show (truncateMatches limit (exchangeSort (fuzzyMatchesOf (normalize name)
        items))).Pairwise (fun a b => b.score ≤ a.score)
    rw [truncateMatches_eq_take]
    exact (exchangeSort_sorted _).sublist (List.take_sublist _ _)
  · exact truncateMatches_eq_take _ _

/-! ## Pending submissions (`submissions.go`: `PendingSubmission`,
`SubmissionManager`; `Bot.commitSubmission` from the item-confirmation
handler) -/

/-- Go `ocr.MarketItem`. -/
structure MarketItem where
  name : Str
  price : Int
  quantity : Int
deriving DecidableEq

/-- Go `ocr.MarketData`. -/
structure MarketData where
  port : Str
  orderType : Str
  items : List MarketItem
deriving DecidableEq

/-- Go `database.Market`, restricted to the fields `GetMarketOrders` fills
(`ItemID`, `Price`, `Quantity`); the other columns stay at their zero values
for `ReplacePortOrders` to complete. -/
structure Market where
  itemID : Int
  price : Int
  quantity : Int
deriving DecidableEq

/-- Go `PendingSubmission` (`submissions.go`). -/
structure PendingSubmission where
  userID : Str
  channelID : Str
  interactionID : Str
  imagePath : Str
  ocrResult : MarketData
  createdAt : Nat
  expiresAt : Nat
  screenshotHash : Str
  orderType : Str
  portConfirmed : Bool
  portID : Option Int
  itemMappings : List (Str × Int)
  itemsConfirmed : Bool
deriving DecidableEq

/-- Go `SubmissionManager` (mutex omitted; the claims below are about the
per-operation semantics inside the critical section). -/
structure SubmissionManager where
  submissions : List (Str × PendingSubmission)
  timeout : Nat
deriving DecidableEq

/-- Go `SubmissionManager.Create`: builds the submission and stores it under
the user's key unconditionally. -/
def SubmissionManager.create (sm : SubmissionManager) (now : Nat)
    (userID channelID interactionID imagePath screenshotHash orderType : Str)
    (ocrResult : MarketData) : PendingSubmission × SubmissionManager :=
  let sub : PendingSubmission :=
    { userID := userID, channelID := channelID, interactionID := interactionID,
      imagePath := imagePath, ocrResult := ocrResult, createdAt := now,
      expiresAt := now + sm.timeout, screenshotHash := screenshotHash,
      orderType := orderType, portConfirmed := false, portID := none,
      itemMappings := [], itemsConfirmed := false }
  (sub, { sm with submissions := minsert userID sub sm.submissions })

/-- Go `SubmissionManager.Get`: present and not past its expiry
(`time.Now().After(sub.ExpiresAt)` is `expiresAt < now`). -/
def SubmissionManager.get (sm : SubmissionManager) (now : Nat) (userID : Str) :
    Option PendingSubmission :=
  match mlookup userID sm.submissions with
  | none => none
  | some sub => if sub.expiresAt < now then none else some sub

/-- Go `SubmissionManager.Remove`. -/
def SubmissionManager.remove (sm : SubmissionManager) (userID : Str) :
    SubmissionManager :=
  { sm with submissions := merase userID sm.submissions }

/-- Go `SubmissionManager.ConfirmPort`: presence check only, then set. -/
def SubmissionManager.confirmPort (sm : SubmissionManager) (userID : Str)
    (portID : Int) : Bool × SubmissionManager :=
  match mlookup userID sm.submissions with
  | none => (false, sm)
  | some sub =>
      (true, { sm with submissions :=
        (minsert userID { sub with portID := some portID, portConfirmed := true }
          sm.submissions) })

/-- Go `SubmissionManager.AddItemMapping`: `true` exactly for the first
mapping of an OCR name. -/
def SubmissionManager.addItemMapping (sm : SubmissionManager)
    (userID ocrName : Str) (itemID : Int) : Bool × SubmissionManager :=
  match mlookup userID sm.submissions with
  | none => (false, sm)
  | some sub =>
      match mlookup ocrName sub.itemMappings with
      | some _ => (false, sm)
      | none =>
          (true, { sm with submissions :=
            (minsert userID
              { sub with itemMappings := minsert ocrName itemID sub.itemMappings }
              sm.submissions) })

/-- Go `SubmissionManager.MarkItemsConfirmed` (defined in the source but —
see C8 — never called). -/
def SubmissionManager.markItemsConfirmed (sm : SubmissionManager)
    (userID : Str) : Bool × SubmissionManager :=
  match mlookup userID sm.submissions with
  | none => (false, sm)
  | some sub =>
      (true, { sm with submissions :=
        (minsert userID { sub with itemsConfirmed := true } sm.submissions) })

/-- Go `SubmissionManager.IsReady`. -/
def SubmissionManager.isReady (sm : SubmissionManager) (userID : Str) : Bool :=
  match mlookup userID sm.submissions with
  | none => false
  | some sub => sub.portConfirmed && sub.itemsConfirmed

/-- Go `SubmissionManager.GetMarketOrders`: Go's `nil` slice is the empty
list (the accompanying `error` result is always `nil` and is omitted).  One
order line is appended per payload occurrence; occurrences whose name has no
mapping are skipped (`continue`). -/
def SubmissionManager.getMarketOrders (sm : SubmissionManager) (userID : Str) :
    List Market :=
  match mlookup userID sm.submissions with
  | none => []
  | some sub =>
      if sub.portConfirmed && sub.itemsConfirmed then
        sub.ocrResult.items.foldl
          (fun orders it =>
            match mlookup it.name sub.itemMappings with
            | none => orders
            | some itemID =>
                orders ++ [{ itemID := itemID, price := it.price,
                             quantity := it.quantity }]) []
      else []

/-- Go `SubmissionManager.cleanup`: drop every entry past its expiry. -/
def SubmissionManager.cleanup (sm : SubmissionManager) (now : Nat) :
    SubmissionManager :=
  { sm with submissions := sm.submissions.filter (fun p => !(p.2.expiresAt < now)) }

def uniqueByName : List MarketItem → List Str → List MarketItem
  | [], _ => []
  | it :: rest, seen =>
      if it.name ∈ seen then uniqueByName rest seen
      else it :: uniqueByName rest (it.name :: seen)

/-- Go `PendingSubmission.GetUniqueOCRItems` (the `seen` set plus ordered
append). -/
def PendingSubmission.getUniqueOCRItems (sub : PendingSubmission) :
    List MarketItem :=
  uniqueByName sub.ocrResult.items []

/-- Go `PendingSubmission.IsComplete`. -/
def PendingSubmission.isComplete (sub : PendingSubmission) : Bool :=
  sub.itemMappings.length == sub.getUniqueOCRItems.length

/-- The commit step of the item-confirmation flow (`Bot.commitSubmission`):
build the final orders; when they are empty (`err != nil || orders == nil`)
report failure; otherwise attempt the storage write (`ReplacePortOrders`,
abstracted as the boolean `commitOk`) and remove the pending submission only
after the write succeeded.  The second component reports whether the orders
were committed. -/
def commitSubmission (sm : SubmissionManager) (userID : Str) (commitOk : Bool) :
    SubmissionManager × Bool :=
  let orders := sm.getMarketOrders userID
  if orders = [] then (sm, false)
  else if commitOk then (sm.remove userID, true)
  else (sm, false)

/-- C2 counterexample: user "u" creates at tick 0 (TTL 100, so still live at
tick 1), then creates again at tick 1: the second `Create` succeeds and the
store now holds the second submission — the store does not refuse the silent
overwrite. -/
theorem create_overwrite_counterexample :
    let payload : MarketData := ⟨"p".data, "buy".data, []⟩
    let sm0 : SubmissionManager := ⟨[], 100⟩
    let r1 := sm0.create 0 "u".data "ch1".data "i1".data "img1".data
      "h1".data "buy".data payload
    let r2 := r1.2.create 1 "u".data "ch2".data "i2".data "img2".data
      "h2".data "buy".data payload
    mlookup "u".data r1.2.submissions = some r1.1 ∧
    ¬ r1.1.expiresAt < 1 ∧
    mlookup "u".data r2.2.submissions = some r2.1 ∧
    r2.1 ≠ r1.1 := by
  decide

/-- C2 (amended): `Create` never fails.  Even when the user already holds a
non-expired submission, it builds a fresh submission with the caller's data
and silently replaces the old one under the user's key (last write wins);
entries of other users are untouched. -/
theorem create_always_overwrites (sm : SubmissionManager) (now : Nat)
    (userID channelID interactionID imagePath screenshotHash orderType : Str)
    (ocrResult : MarketData) (old : PendingSubmission)
    (hold : mlookup userID sm.submissions = some old)
    (hlive : ¬ old.expiresAt < now) :
    mlookup userID (sm.create now userID channelID interactionID imagePath
        screenshotHash orderType ocrResult).2.submissions
      = some (sm.create now userID channelID interactionID imagePath
        screenshotHash orderType ocrResult).1 ∧
    (sm.create now userID channelID interactionID imagePath
        screenshotHash orderType ocrResult).1.createdAt = now ∧
    (sm.create now userID channelID interactionID imagePath
        screenshotHash orderType ocrResult).1.expiresAt = now + sm.timeout ∧
    (sm.create now userID channelID interactionID imagePath
        screenshotHash orderType ocrResult).1.channelID = channelID ∧
    ∀ v, v ≠ userID →
      mlookup v (sm.create now userID channelID interactionID imagePath
        screenshotHash orderType ocrResult).2.submissions
          = mlookup v sm.submissions := by
  refine ⟨mlookup_minsert_self _ _ _, rfl, rfl, rfl, ?_⟩
  intro v hv
  exact mlookup_minsert_ne _ _ hv

/-- Witness for the amended C2 at a concrete store holding a live submission
for "u". -/
theorem create_always_overwrites_witness :
    let payload : MarketData := ⟨"p".data, "buy".data, []⟩
    let old : PendingSubmission :=
      { userID := "u".data, channelID := "ch1".data, interactionID := "i1".data,
        imagePath := "img1".data, ocrResult := payload, createdAt := 0,
        expiresAt := 100, screenshotHash := "h1".data, orderType := "buy".data,
        portConfirmed := false, portID := none, itemMappings := [],
        itemsConfirmed := false }
    let sm : SubmissionManager := ⟨[("u".data, old)], 100⟩
    mlookup "u".data (sm.create 1 "u".data "ch2".data "i2".data "img2".data
        "h2".data "buy".data payload).2.submissions
      = some (sm.create 1 "u".data "ch2".data "i2".data "img2".data
        "h2".data "buy".data payload).1 ∧
    (sm.create 1 "u".data "ch2".data "i2".data "img2".data
        "h2".data "buy".data payload).1.createdAt = 1 ∧
    (sm.create 1 "u".data "ch2".data "i2".data "img2".data
        "h2".data "buy".data payload).1.expiresAt = 1 + sm.timeout ∧
    (sm.create 1 "u".data "ch2".data "i2".data "img2".data
        "h2".data "buy".data payload).1.channelID = "ch2".data ∧
    ∀ v, v ≠ "u".data →
      mlookup v (sm.create 1 "u".data "ch2".data "i2".data "img2".data
        "h2".data "buy".data payload).2.submissions
          = mlookup v sm.submissions := by
  intro payload old sm
  exact create_always_overwrites sm 1 "u".data "ch2".data "i2".data "img2".data
    "h2".data "buy".data payload old (by decide) (by decide)

/-- C6 counterexample: a submission that expired at tick 10 is already
invisible to `Get` at tick 20, yet `ConfirmPort` still reports success and
mutates it — the expiry check exists only in `Get`. -/
theorem expired_confirmPort_counterexample :
    let sub : PendingSubmission :=
      { userID := "v".data, channelID := "c".data, interactionID := "i".data,
        imagePath := "img".data, ocrResult := ⟨"p".data, "buy".data, []⟩,
        createdAt := 0, expiresAt := 10, screenshotHash := "h".data,
        orderType := "buy".data, portConfirmed := false, portID := none,
        itemMappings := [], itemsConfirmed := false }
    let sm : SubmissionManager := ⟨[("v".data, sub)], 10⟩
    sm.get 20 "v".data = none ∧
    (sm.confirmPort "v".data 5).1 = true ∧
    mlookup "v".data (sm.confirmPort "v".data 5).2.submissions
      = some { sub with portID := some 5, portConfirmed := true } := by
  decide

/-- C6 (amended): every store operation refuses an *unknown* user key and
leaves the store unchanged, and `Get` additionally hides an expired entry
even while its map entry survives until the next sweep; but `ConfirmPort`,
`AddItemMapping`, `IsReady` and `GetMarketOrders` check presence only, so an
expired-but-unswept submission is still reachable through them (see the
counterexample). -/
theorem ops_unknown_key_not_found (sm : SubmissionManager) (now : Nat)
    (u v nm : Str) (pid iid : Int) (sub : PendingSubmission)
    (hu : mlookup u sm.submissions = none)
    (hv : mlookup v sm.submissions = some sub)
    (hexp : sub.expiresAt < now) :
    sm.get now u = none ∧
    sm.confirmPort u pid = (false, sm) ∧
    sm.addItemMapping u nm iid = (false, sm) ∧
    sm.isReady u = false ∧
    sm.getMarketOrders u = [] ∧
    sm.get now v = none := by
  refine ⟨?_, ?_, ?_, ?_, ?_, ?_⟩ <;>
    simp [SubmissionManager.get, SubmissionManager.confirmPort,
      SubmissionManager.addItemMapping, SubmissionManager.isReady,
      SubmissionManager.getMarketOrders, hu, hv, hexp]

/-- Witness for the amended C6: a store that knows nothing about "u" and
holds an expired submission for "v". -/
theorem ops_unknown_key_not_found_witness :
    let sub : PendingSubmission :=
      { userID := "v".data, channelID := "c".data, interactionID := "i".data,
        imagePath := "img".data, ocrResult := ⟨"p".data, "buy".data, []⟩,
        createdAt := 0, expiresAt := 10, screenshotHash := "h".data,
        orderType := "buy".data, portConfirmed := false, portID := none,
        itemMappings := [], itemsConfirmed := false }
    let sm : SubmissionManager := ⟨[("v".data, sub)], 10⟩
    sm.get 20 "u".data = none ∧
    sm.confirmPort "u".data 1 = (false, sm) ∧
    sm.addItemMapping "u".data "nm".data 2 = (false, sm) ∧
    sm.isReady "u".data = false ∧
    sm.getMarketOrders "u".data = [] ∧
    sm.get 20 "v".data = none := by
  intro sub sm
  exact ops_unknown_key_not_found sm 20 "u".data "v".data "nm".data 1 2 sub
    (by decide) (by decide) (by decide)

/-- C7 counterexample: a submission whose port is already confirmed as 1 is
re-confirmed with port 2: the call reports success but the stored port id
changes to 2 — not the claimed no-op. -/
theorem reconfirm_overwrites_counterexample :
    let sub : PendingSubmission :=
      { userID := "u".data, channelID := "c".data, interactionID := "i".data,
        imagePath := "img".data, ocrResult := ⟨"p".data, "buy".data, []⟩,
        createdAt := 0, expiresAt := 100, screenshotHash := "h".data,
        orderType := "buy".data, portConfirmed := true, portID := some 1,
        itemMappings := [], itemsConfirmed := false }
    let sm : SubmissionManager := ⟨[("u".data, sub)], 100⟩
    (sm.confirmPort "u".data 2).1 = true ∧
    (mlookup "u".data (sm.confirmPort "u".data 2).2.submissions).map
      (fun s => s.portID) = some (some 2) ∧
    sub.portID = some 1 := by
  decide

/-- C7 (amended): re-confirming the port of a pending submission always
succeeds, but it is last-write-wins rather than a no-op: the stored port id
becomes the newly supplied one (`portConfirmed` stays set); `ConfirmPort`
performs no already-confirmed check. -/
theorem confirmPort_overwrites (sm : SubmissionManager) (u : Str) (p : Int)
    (sub : PendingSubmission) (hu : mlookup u sm.submissions = some sub)
    (hconf : sub.portConfirmed = true) :
    (sm.confirmPort u p).1 = true ∧
    mlookup u (sm.confirmPort u p).2.submissions
      = some { sub with portID := some p, portConfirmed := true } := by
  simp [SubmissionManager.confirmPort, hu, mlookup_minsert_self]

/-- Witness for the amended C7 at a concrete already-confirmed submission. -/
theorem confirmPort_overwrites_witness :
    let sub : PendingSubmission :=
      { userID := "u".data, channelID := "c".data, interactionID := "i".data,
        imagePath := "img".data, ocrResult := ⟨"p".data, "buy".data, []⟩,
        createdAt := 0, expiresAt := 100, screenshotHash := "h".data,
        orderType := "buy".data, portConfirmed := true, portID := some 1,
        itemMappings := [], itemsConfirmed := false }
    let sm : SubmissionManager := ⟨[("u".data, sub)], 100⟩
    (sm.confirmPort "u".data 2).1 = true ∧
    mlookup "u".data (sm.confirmPort "u".data 2).2.submissions
      = some { sub with portID := some 2, portConfirmed := true } := by
  intro sub sm
  exact confirmPort_overwrites sm "u".data 2 sub (by decide) (by decide)

/-- C8 (code bug): take a payload with "Cannon" three times plus two other
unique names, port confirmed, and a mapping recorded for every distinct raw
name (3 distinct names — `AddItemMapping` refuses a repeat, so only one
confirmation per name).  `GetMarketOrders` still returns no orders and the
commit path reports failure, because it also demands `ItemsConfirmed` — a
flag no code path ever sets (`MarkItemsConfirmed` has no caller).  With that
flag forced, the intended expansion appears: 5 order lines, one per
occurrence, all "Cannon" lines sharing item id 7. -/
theorem buildCommitOrders_flag_bug :
    let payload : MarketData :=
      ⟨"porto".data, "buy".data,
       [⟨"Cannon".data, 10, 5⟩, ⟨"Cannon".data, 12, 6⟩, ⟨"Cannon".data, 9, 1⟩,
        ⟨"Iron".data, 3, 2⟩, ⟨"Rope".data, 4, 7⟩]⟩
    let sub : PendingSubmission :=
      { userID := "u".data, channelID := "c".data, interactionID := "i".data,
        imagePath := "img".data, ocrResult := payload, createdAt := 0,
        expiresAt := 300, screenshotHash := "h".data, orderType := "buy".data,
        portConfirmed := true, portID := some 1,
        itemMappings := [("Cannon".data, 7), ("Iron".data, 8), ("Rope".data, 9)],
        itemsConfirmed := false }
    let sm : SubmissionManager := ⟨[("u".data, sub)], 300⟩
    sub.getUniqueOCRItems.length = 3 ∧
    sub.isComplete = true ∧
    (sm.addItemMapping "u".data "Cannon".data 99).1 = false ∧
    sm.getMarketOrders "u".data = [] ∧
    commitSubmission sm "u".data true = (sm, false) ∧
    SubmissionManager.getMarketOrders
        ⟨[("u".data, { sub with itemsConfirmed := true })], 300⟩ "u".data
      = [⟨7, 10, 5⟩, ⟨7, 12, 6⟩, ⟨7, 9, 1⟩, ⟨8, 3, 2⟩, ⟨9, 4, 7⟩] := by
  decide

/-- C9: a failed storage commit leaves the pending-submission store intact —
the submission is not removed, so the user can retry without re-resolving —
and the store changes (by removing the submission) only when the storage
write actually succeeded. -/
theorem commit_failure_leaves_intact (sm : SubmissionManager) (u : Str) :
    (commitSubmission sm u false).1 = sm ∧
    (commitSubmission sm u false).2 = false ∧
    ((commitSubmission sm u true).2 = true →
      (commitSubmission sm u true).1 = sm.remove u) ∧
    ((commitSubmission sm u true).2 = false →
      (commitSubmission sm u true).1 = sm) := by
  unfold commitSubmission
  by_cases h : sm.getMarketOrders u = [] <;> simp [h]

/-- Witness for C9 at a concrete store. -/
theorem commit_failure_leaves_intact_witness :
    (commitSubmission ⟨[], 10⟩ "u".data false).1 = ⟨[], 10⟩ ∧
    (commitSubmission ⟨[], 10⟩ "u".data false).2 = false ∧
    ((commitSubmission ⟨[], 10⟩ "u".data true).2 = true →
      (commitSubmission ⟨[], 10⟩ "u".data true).1
        = SubmissionManager.remove ⟨[], 10⟩ "u".data) ∧
    ((commitSubmission ⟨[], 10⟩ "u".data true).2 = false →
      (commitSubmission ⟨[], 10⟩ "u".data true).1 = ⟨[], 10⟩) :=
  commit_failure_leaves_intact ⟨[], 10⟩ "u".data

/-! ## Trade-conversation registry (`submissions.go`:
`TradeConversationManager`) -/

/-- The write-once data of an `ActiveConversation`.  The mutable
`LastActivity` timestamp lives in the shared `lastAct` store below, keyed by
the conversation object's reference, so a `Touch` through one participant's
entry is seen through the other's, exactly as with the shared Go pointer. -/
structure ConvFields where
  conversationID : Int
  orderID : Int
  initiatorUserID : Str
  initiatorIngameName : Str
  creatorUserID : Str
  creatorIngameName : Str
deriving DecidableEq

/-- An index entry: the reference of the shared conversation object together
with its write-once fields. -/
structure ConvEntry where
  laRef : Nat
  fields : ConvFields
deriving DecidableEq

/-- Go `TradeConversationManager`: `index` is the `conversations` map
(userID → conversation, both parties indexed), `lastAct` carries each
conversation object's `LastActivity` by reference. -/
structure RegistryState where
  index : List (Str × ConvEntry)
  lastAct : List (Nat × Nat)
  timeout : Nat
deriving DecidableEq

/-- Read a conversation object's `LastActivity` through its reference. -/
def lastActOf (st : RegistryState) (r : Nat) : Nat :=
  (mlookup r st.lastAct).getD 0

/-- The liveness check of `TryRegister` (shared by `GetByUser` and
`HasActiveConversation`): an entry exists and
`now.Sub(LastActivity) <= timeout`. -/
def liveb (st : RegistryState) (now : Nat) (u : Str) : Bool :=
  match mlookup u st.index with
  | none => false
  | some e => decide (now - lastActOf st e.laRef ≤ st.timeout)

/-- Go `TryRegister`: under one critical section, return `false` if either
participant's entry is live; otherwise stamp `LastActivity := now` on the
conversation object `ref` and index it under both participant keys. -/
def tryRegister (st : RegistryState) (now ref : Nat) (f : ConvFields) :
    Bool × RegistryState :=
  if liveb st now f.initiatorUserID then (false, st)
  else if liveb st now f.creatorUserID then (false, st)
  else
    (true,
      { st with
        lastAct := minsert ref now st.lastAct,
        index := (minsert f.creatorUserID ⟨ref, f⟩
          (minsert f.initiatorUserID ⟨ref, f⟩ st.index)) })

/-- Go `Register` (startup recovery): stamp and index both keys, skipping
the exclusivity check. -/
def register (st : RegistryState) (now ref : Nat) (f : ConvFields) :
    RegistryState :=
  { st with
    lastAct := minsert ref now st.lastAct,
    index := (minsert f.creatorUserID ⟨ref, f⟩
      (minsert f.initiatorUserID ⟨ref, f⟩ st.index)) }

/-- Go `Touch`: bump the shared conversation object's `LastActivity` through
either participant's key. -/
def touch (st : RegistryState) (now : Nat) (u : Str) : RegistryState :=
  match mlookup u st.index with
  | none => st
  | some e => { st with lastAct := minsert e.laRef now st.lastAct }

/-- One of the two symmetric deletion blocks of Go `Remove`: delete the
participant key `u`, but only while it still points at a conversation
carrying the conversation id `cid` of the conversation being removed. -/
def removeHalf (st : RegistryState) (u : Str) (cid : Int) : RegistryState :=
  match mlookup u st.index with
  | some e =>
      if e.fields.conversationID = cid then
        { st with index := merase u st.index }
      else st
  | none => st

/-- Go `Remove`: the initiator's block, then the creator's. -/
def removeConv (st : RegistryState) (f : ConvFields) : RegistryState :=
  removeHalf (removeHalf st f.initiatorUserID f.conversationID)
    f.creatorUserID f.conversationID

/-- Go `cleanupLoop` body: delete every user entry whose conversation has
timed out (`now.Sub(LastActivity) > timeout`). -/
def sweepReg (st : RegistryState) (now : Nat) : RegistryState :=
  { st with index :=
    st.index.filter (fun p => !(decide (st.timeout < now - lastActOf st p.2.laRef))) }

/-- The registry operations quantified over by the invariant claim, with the
clock made explicit. -/
inductive RegOp where
  | tryReg (now ref : Nat) (f : ConvFields)
  | reg (now ref : Nat) (f : ConvFields)
  | touchOp (now : Nat) (u : Str)
  | removeOp (f : ConvFields)
  | sweepOp (now : Nat)

def applyOp (st : RegistryState) : RegOp → RegistryState
  | .tryReg now ref f => (tryRegister st now ref f).2
  | .reg now ref f => register st now ref f
  | .touchOp now u => touch st now u
  | .removeOp f => removeConv st f
  | .sweepOp now => sweepReg st now

def runOps (ops : List RegOp) (st : RegistryState) : RegistryState :=
  ops.foldl applyOp st

/-- Go `NewTradeConversationManager`: empty registry. -/
def initRegistry (timeout : Nat) : RegistryState := ⟨[], [], timeout⟩

/-- Go `ActiveConversation.GetOtherParty`, restricted to the user ids. -/
def otherParty (f : ConvFields) (u : Str) : Str :=
  if u = f.initiatorUserID then f.creatorUserID else f.initiatorUserID

/-- The claim's pairing-coherence property: every live user entry points at a
conversation whose other participant's entry exists and carries the same
conversation id. -/
def pairingCoherent (st : RegistryState) (now : Nat) : Bool :=
  st.index.all (fun p =>
    !(liveb st now p.1) ||
      match mlookup (otherParty p.2.fields p.1) st.index with
      | some e2 => decide (e2.fields.conversationID = p.2.fields.conversationID)
      | none => false)

/-- C1: `TryRegister` returns `true` exactly when neither the initiator's nor
the counterpart's key holds a live (non-timed-out) entry; on success both
participant keys map to the same freshly stamped conversation object, and on
failure the registry is unchanged. -/
theorem tryRegister_exclusive_pairing (st : RegistryState) (now ref : Nat)
    (f : ConvFields) :
    ((tryRegister st now ref f).1 = true ↔
      liveb st now f.initiatorUserID = false ∧
      liveb st now f.creatorUserID = false) ∧
    ((tryRegister st now ref f).1 = true →
      mlookup f.initiatorUserID (tryRegister st now ref f).2.index
          = some ⟨ref, f⟩ ∧
      mlookup f.creatorUserID (tryRegister st now ref f).2.index
          = some ⟨ref, f⟩ ∧
      mlookup ref (tryRegister st now ref f).2.lastAct = some now) ∧
    ((tryRegister st now ref f).1 = false →
      (tryRegister st now ref f).2 = st) := by
  have hcr : mlookup f.creatorUserID (minsert f.creatorUserID ⟨ref, f⟩
      (minsert f.initiatorUserID ⟨ref, f⟩ st.index)) = some ⟨ref, f⟩ :=
    mlookup_minsert_self _ _ _
  have hin : mlookup f.initiatorUserID (minsert f.creatorUserID ⟨ref, f⟩
      (minsert f.initiatorUserID ⟨ref, f⟩ st.index)) = some ⟨ref, f⟩ := by
    by_cases hic : f.initiatorUserID = f.creatorUserID
    · rw [hic]
      exact mlookup_minsert_self _ _ _
    · rw [mlookup_minsert_ne _ _ hic]
      exact mlookup_minsert_self _ _ _
  have hla : mlookup ref (minsert ref now st.lastAct) = some now :=
    mlookup_minsert_self _ _ _
  unfold tryRegister
  by_cases h1 : liveb st now f.initiatorUserID <;>
    by_cases h2 : liveb st now f.creatorUserID <;>
    simp [h1, h2, hin, hcr, hla]

/-- Witness for C1 at the empty registry. -/
theorem tryRegister_exclusive_pairing_witness :
    ((tryRegister ⟨[], [], 10⟩ 0 1
        ⟨1, 1, "A".data, "a".data, "B".data, "b".data⟩).1 = true ↔
      liveb ⟨[], [], 10⟩ 0 "A".data = false ∧
      liveb ⟨[], [], 10⟩ 0 "B".data = false) ∧
    ((tryRegister ⟨[], [], 10⟩ 0 1
        ⟨1, 1, "A".data, "a".data, "B".data, "b".data⟩).1 = true →
      mlookup "A".data (tryRegister ⟨[], [], 10⟩ 0 1
          ⟨1, 1, "A".data, "a".data, "B".data, "b".data⟩).2.index
        = some ⟨1, ⟨1, 1, "A".data, "a".data, "B".data, "b".data⟩⟩ ∧
      mlookup "B".data (tryRegister ⟨[], [], 10⟩ 0 1
          ⟨1, 1, "A".data, "a".data, "B".data, "b".data⟩).2.index
        = some ⟨1, ⟨1, 1, "A".data, "a".data, "B".data, "b".data⟩⟩ ∧
      mlookup 1 (tryRegister ⟨[], [], 10⟩ 0 1
          ⟨1, 1, "A".data, "a".data, "B".data, "b".data⟩).2.lastAct = some 0) ∧
    ((tryRegister ⟨[], [], 10⟩ 0 1
        ⟨1, 1, "A".data, "a".data, "B".data, "b".data⟩).1 = false →
      (tryRegister ⟨[], [], 10⟩ 0 1
        ⟨1, 1, "A".data, "a".data, "B".data, "b".data⟩).2 = ⟨[], [], 10⟩) :=
  tryRegister_exclusive_pairing ⟨[], [], 10⟩ 0 1
    ⟨1, 1, "A".data, "a".data, "B".data, "b".data⟩

/-- C3 counterexample: register the pair (A, B) via `TryRegister`, then —
still at tick 0 — recover the pair (A, C) via `Register`, which skips the
exclusivity check.  Afterwards B's key is live and points at conversation 1,
but its counterpart A points at conversation 2: the both-keys-same-id
property fails on a reachable state. -/
theorem registry_pairing_counterexample :
    let f1 : ConvFields := ⟨1, 1, "A".data, "a".data, "B".data, "b".data⟩
    let f2 : ConvFields := ⟨2, 2, "A".data, "a".data, "C".data, "c".data⟩
    let st := runOps [.tryReg 0 1 f1, .reg 0 2 f2] (initRegistry 10)
    liveb st 0 "B".data = true ∧
    (mlookup "B".data st.index).map (fun e => e.fields.conversationID)
      = some 1 ∧
    (mlookup "A".data st.index).map (fun e => e.fields.conversationID)
      = some 2 ∧
    liveb st 0 "A".data = true ∧
    pairingCoherent st 0 = false := by
  decide

/-! ## Reachable-state invariant of the registry index -/

theorem mem_minsert {κ β : Type} [DecidableEq κ] (p : κ × β) (k : κ) (v : β)
    (l : List (κ × β)) : p ∈ minsert k v l → p = (k, v) ∨ p ∈ l := by
  induction l with
  | nil =>
      intro h
      simp [minsert] at h
      exact Or.inl h
  | cons q rest ih =>
      obtain ⟨k₀, v₀⟩ := q
      by_cases h : k₀ = k
      · simp only [minsert, if_pos h]
        intro hmem
        rcases List.mem_cons.mp hmem with h1 | h1
        · exact Or.inl h1
        · exact Or.inr (List.mem_cons_of_mem _ h1)
      · simp only [minsert, if_neg h]
        intro hmem
        rcases List.mem_cons.mp hmem with h1 | h1
        · exact Or.inr (h1 ▸ List.mem_cons_self _ _)
        · rcases ih h1 with h2 | h2
          · exact Or.inl h2
          · exact Or.inr (List.mem_cons_of_mem _ h2)

theorem map_fst_mem_minsert {κ β : Type} [DecidableEq κ] (a k : κ) (v : β)
    (l : List (κ × β)) :
    a ∈ (minsert k v l).map Prod.fst → a = k ∨ a ∈ l.map Prod.fst := by
  intro h
  rcases List.mem_map.mp h with ⟨p, hp, hpa⟩
  rcases mem_minsert p k v l hp with h1 | h1
  · left
    rw [← hpa, h1]
  · right
    exact hpa ▸ List.mem_map_of_mem _ h1

theorem minsert_map_fst_nodup {κ β : Type} [DecidableEq κ] (k : κ) (v : β)
    (l : List (κ × β)) (h : (l.map Prod.fst).Nodup) :
    ((minsert k v l).map Prod.fst).Nodup := by
  induction l with
  | nil => simp [minsert]
  | cons q rest ih =>
      obtain ⟨k₀, v₀⟩ := q
      simp only [List.map_cons, List.nodup_cons] at h
      obtain ⟨hk₀, hrest⟩ := h
      by_cases hkk : k₀ = k
      · subst hkk
        have hins : minsert k₀ v ((k₀, v₀) :: rest) = (k₀, v) :: rest := by
          simp [minsert]
        rw [hins, List.map_cons, List.nodup_cons]
        exact ⟨hk₀, hrest⟩
      · simp only [minsert, if_neg hkk, List.map_cons, List.nodup_cons]
        refine ⟨?_, ih hrest⟩
        intro hmem
        rcases map_fst_mem_minsert k₀ k v rest hmem with h1 | h1
        · exact hkk h1
        · exact hk₀ h1

theorem merase_sublist {κ β : Type} [DecidableEq κ] (k : κ)
    (l : List (κ × β)) : (merase k l).Sublist l := by
  induction l with
  | nil => simp [merase]
  | cons q rest ih =>
      obtain ⟨k₀, v₀⟩ := q
      by_cases h : k₀ = k
      · simp only [merase, if_pos h]
        exact List.sublist_cons_self _ _
      · simp only [merase, if_neg h]
        exact ih.cons₂ _

/-- The registry-index invariant: no user id is indexed twice, and every
entry's user is a participant of the conversation it points at. -/
def indexInv (idx : List (Str × ConvEntry)) : Prop :=
  (idx.map Prod.fst).Nodup ∧
  ∀ p ∈ idx, p.1 = p.2.fields.initiatorUserID ∨ p.1 = p.2.fields.creatorUserID

theorem indexInv_sublist {idx idx' : List (Str × ConvEntry)}
    (hsub : idx'.Sublist idx) (h : indexInv idx) : indexInv idx' := by
  obtain ⟨h1, h2⟩ := h
  exact ⟨h1.sublist (hsub.map Prod.fst), fun p hp => h2 p (hsub.subset hp)⟩

theorem indexInv_insertBoth (ref : Nat) (f : ConvFields)
    (idx : List (Str × ConvEntry)) (h : indexInv idx) :
    indexInv (minsert f.creatorUserID ⟨ref, f⟩
      (minsert f.initiatorUserID ⟨ref, f⟩ idx)) := by
  obtain ⟨h1, h2⟩ := h
  constructor
  · exact minsert_map_fst_nodup _ _ _ (minsert_map_fst_nodup _ _ _ h1)
  · intro p hp
    rcases mem_minsert _ _ _ _ hp with h3 | h3
    · right
      rw [h3]
    · rcases mem_minsert _ _ _ _ h3 with h4 | h4
      · left
        rw [h4]
      · exact h2 p h4

theorem removeHalf_indexInv (st : RegistryState) (u : Str) (cid : Int)
    (h : indexInv st.index) : indexInv (removeHalf st u cid).index := by
  unfold removeHalf
  split
  · split
    · exact indexInv_sublist (merase_sublist _ _) h
    · exact h
  · exact h

theorem applyOp_indexInv (st : RegistryState) (op : RegOp)
    (h : indexInv st.index) : indexInv (applyOp st op).index := by
  cases op with
  | tryReg now ref f =>
      show indexInv (tryRegister st now ref f).2.index
      unfold tryRegister
      by_cases h1 : liveb st now f.initiatorUserID
      · simpa [h1] using h
      · by_cases h2 : liveb st now f.creatorUserID
        · simpa [h1, h2] using h
        · simpa [h1, h2] using indexInv_insertBoth ref f st.index h
  | reg now ref f =>
      exact indexInv_insertBoth ref f st.index h
  | touchOp now u =>
      show indexInv (touch st now u).index
      unfold touch
      split
      · exact h
      · exact h
  | removeOp f =>
      exact removeHalf_indexInv _ _ _ (removeHalf_indexInv _ _ _ h)
  | sweepOp now =>
      exact indexInv_sublist (List.filter_sublist _) h

theorem runOps_indexInv (ops : List RegOp) :
    ∀ st : RegistryState, indexInv st.index → indexInv (runOps ops st).index := by
  induction ops with
  | nil => intro st h; exact h
  | cons op rest ih =>
      intro st h
      exact ih _ (applyOp_indexInv st op h)

theorem nodup_keys_filter_len {κ β : Type} [DecidableEq κ] :
    ∀ l : List (κ × β), (l.map Prod.fst).Nodup →
      ∀ u, (l.filter (fun p => decide (p.1 = u))).length ≤ 1 := by
  intro l
  induction l with
  | nil => intro h u; simp
  | cons q rest ih =>
      intro h u
      obtain ⟨k₀, v₀⟩ := q
      simp only [List.map_cons, List.nodup_cons] at h
      obtain ⟨hk, hrest⟩ := h
      by_cases hu : k₀ = u
      · subst hu
        have hnil : rest.filter (fun p => decide (p.1 = k₀)) = [] := by
          rw [List.filter_eq_nil_iff]
          intro p hp
          simp only [decide_eq_true_eq]
          intro hpk
          exact hk (hpk ▸ List.mem_map_of_mem Prod.fst hp)
        simp [List.filter_cons, hnil]
      · have hstep : ((k₀, v₀) :: rest).filter (fun p => decide (p.1 = u))
            = rest.filter (fun p => decide (p.1 = u)) := by
          simp [List.filter_cons, hu]
        rw [hstep]
        exact ih hrest u

/-- C3 (amended): in every state reachable from the empty registry by any
sequence of `TryRegister`, `Register`, `Touch`, `Remove` and sweep
operations, a user id holds at most one index entry (so at most one
non-expired conversation), and every entry points at a conversation in which
that user is the initiator or the counterpart.  The stronger
both-keys-carry-the-same-conversation-id coupling is not an invariant of
this operation set: `Register` skips the exclusivity check and can overwrite
one half of a live pair (see the counterexample). -/
theorem registry_reachable_invariant (ops : List RegOp) (t : Nat) :
    (∀ u, ((runOps ops (initRegistry t)).index.filter
        (fun p => decide (p.1 = u))).length ≤ 1) ∧
    ∀ p ∈ (runOps ops (initRegistry t)).index,
      p.1 = p.2.fields.initiatorUserID ∨ p.1 = p.2.fields.creatorUserID := by
  have hinv : indexInv (runOps ops (initRegistry t)).index :=
    runOps_indexInv ops (initRegistry t) ⟨by simp [initRegistry], by simp [initRegistry]⟩
  exact ⟨fun u => nodup_keys_filter_len _ hinv.1 u, hinv.2⟩
